import Mathlib

/-!
Verification development for the ctop resource monitor (src/ctop.c).

The C code is shallowly embedded: C `float` arithmetic is modelled over `ℚ`
(exact rational arithmetic), C `unsigned long long` / `unsigned long`
subtraction is modelled as subtraction modulo `2 ^ 64` (`sub64`), and C
casts from floating point to `int` are modelled by truncation toward zero
(`ctrunc`).  Fallible external reads (files under /proc) are modelled as
already-parsed input records, matching the spec's interface section.
-/

namespace Ctop

/-- HISTORY_SIZE from ctop.c line 46. -/
def HISTORY_SIZE : ℕ := 120

/-- MAX_PROCESSES from ctop.c line 44. -/
def MAX_PROCESSES : ℕ := 512

/-- MAX_CPU_CORES from ctop.c line 45. -/
def MAX_CPU_CORES : ℕ := 256

/-- MAX_DISKS from ctop.c line 47. -/
def MAX_DISKS : ℕ := 32

/-- C `unsigned long long` subtraction: wraparound difference modulo 2^64. -/
def sub64 (a b : ℕ) : ℕ := (2 ^ 64 + a % 2 ^ 64 - b % 2 ^ 64) % 2 ^ 64

/-- C cast from a floating value to `int`: truncation toward zero. -/
def ctrunc (q : ℚ) : ℤ := if 0 ≤ q then ⌊q⌋ else -⌊-q⌋

/-- One /proc/stat line's eight cumulative tick counters (ctop.c line 250). -/
structure CpuSample where
  user : ℕ
  nice : ℕ
  system : ℕ
  idle : ℕ
  iowait : ℕ
  irq : ℕ
  softirq : ℕ
  steal : ℕ
  deriving DecidableEq

/-- The variable total at ctop.c line 254: u64 sum of all eight tick categories. -/
def sampleTotal (s : CpuSample) : ℕ :=
  (s.user + s.nice + s.system + s.idle + s.iowait + s.irq + s.softirq + s.steal) % 2 ^ 64

/-- The variable idle_time at ctop.c line 255: u64 sum of idle + iowait. -/
def sampleIdle (s : CpuSample) : ℕ := (s.idle + s.iowait) % 2 ^ 64

/-- Mathematical (unwrapped) total of the eight tick categories,
used to state the spec's claims about sample pairs. -/
def sampleTotalRaw (s : CpuSample) : ℕ :=
  s.user + s.nice + s.system + s.idle + s.iowait + s.irq + s.softirq + s.steal

/-- Mathematical (unwrapped) idle + iowait. -/
def sampleIdleRaw (s : CpuSample) : ℕ := s.idle + s.iowait

/-- CoreStat from ctop.c lines 97-103 (the tick fields are consumed
immediately by `updateCore`, so only the carried state is kept). -/
structure CoreStat where
  prev_total : ℕ
  prev_idle : ℕ
  percent : ℚ
  history : List ℚ
  history_idx : ℕ
  deriving DecidableEq

/-- The per-core body of parse_cpu_stats, ctop.c lines 254-269: compute the
percent from wrapped u64 differences when `prev_total > 0` and
`total_diff > 0`, write the percent into the history ring at the current
cursor, advance the cursor modulo HISTORY_SIZE, store the new counters. -/
def updateCore (core : CoreStat) (s : CpuSample) : CoreStat :=
  let total := sampleTotal s
  let idle_time := sampleIdle s
  let percent :=
    if core.prev_total > 0 then
      let total_diff := sub64 total core.prev_total
      let idle_diff := sub64 idle_time core.prev_idle
      if total_diff > 0 then
        ((sub64 total_diff idle_diff : ℚ) * 100) / (total_diff : ℚ)
      else core.percent
    else core.percent
  { prev_total := total
    prev_idle := idle_time
    percent := percent
    history := core.history.set core.history_idx percent
    history_idx := (core.history_idx + 1) % HISTORY_SIZE }

/-- ProcessInfo from ctop.c lines 80-94.  C strings are modelled as lists of
byte values; `utime`/`stime` are consumed immediately by the update, so only
the carried `prev_utime`/`prev_stime` are kept. -/
structure ProcessInfo where
  pid : ℕ
  name : List ℕ
  cmdline : List ℕ
  user : List ℕ
  state : ℕ
  prev_utime : ℕ
  prev_stime : ℕ
  mem_rss : ℕ
  cpu_percent : ℚ
  cpu_percent_lazy : ℚ
  mem_percent : ℚ
  deriving DecidableEq

/-- One successfully read /proc/[pid] record (stat + status + cmdline):
the input of one iteration of the parse_processes loop. -/
structure ProcRaw where
  pid : ℕ
  name : List ℕ
  state : ℕ
  utime : ℕ
  stime : ℕ
  mem_rss : ℕ
  user : List ℕ
  cmdline : List ℕ
  deriving DecidableEq

/-- The per-entry body of parse_processes, ctop.c lines 501-607: the fresh
table slot is memset to zero, filled from the current record, and the
previous poll's entry with the same pid (first match, linear scan with
break) supplies the tick counters for the CPU delta. -/
def buildProcess (prev_procs : List ProcessInfo) (clk : ℤ) (elapsed : ℚ)
    (num_cores : ℕ) (total_mem : ℕ) (r : ProcRaw) : ProcessInfo :=
  let lazy0 : ℚ := 0
  let cmdline := if r.cmdline = [] then r.name else r.cmdline
  let mem_percent : ℚ :=
    if total_mem > 0 then ((r.mem_rss : ℚ) * 100) / (total_mem : ℚ) else 0
  match prev_procs.find? (fun p => p.pid == r.pid) with
  | none =>
      { pid := r.pid, name := r.name, cmdline := cmdline, user := r.user,
        state := r.state, prev_utime := r.utime, prev_stime := r.stime,
        mem_rss := r.mem_rss, cpu_percent := 0, cpu_percent_lazy := lazy0,
        mem_percent := mem_percent }
  | some pp =>
      let delta_total : ℤ :=
        ((r.utime : ℤ) - (pp.prev_utime : ℤ)) + ((r.stime : ℤ) - (pp.prev_stime : ℤ))
      let cpu_raw : ℚ :=
        if 0 < num_cores ∧ 0 < elapsed then
          ((delta_total : ℚ) * 100) / ((clk : ℚ) * elapsed * (num_cores : ℚ))
        else 0
      -- Faithful to ctop.c lines 590-594: the blend reads the fresh slot's
      -- cpu_percent_lazy, which the memset at line 502 just zeroed; the
      -- previous poll's smoothed value pp.cpu_percent_lazy is never read.
      let cpu_percent_lazy : ℚ :=
        if lazy0 > 0 ∨ cpu_raw > 0 then lazy0 * (7 / 10) + cpu_raw * (3 / 10)
        else cpu_raw
      { pid := r.pid, name := r.name, cmdline := cmdline, user := r.user,
        state := r.state, prev_utime := r.utime, prev_stime := r.stime,
        mem_rss := r.mem_rss, cpu_percent := cpu_raw,
        cpu_percent_lazy := cpu_percent_lazy, mem_percent := mem_percent }

/-- The admission loop of parse_processes, ctop.c lines 490-611: iterate
the /proc entries while the table has room (count < MAX_PROCESSES).
Entries that are not numeric, cannot be opened, or fail to parse (`none`)
are skipped without consuming a table slot. -/
def scanEntries (build : ProcRaw → ProcessInfo) :
    List (Option ProcRaw) → ℕ → List ProcessInfo
  | [], _ => []
  | e :: rest, count =>
    if count < MAX_PROCESSES then
      match e with
      | none => scanEntries build rest count
      | some r => build r :: scanEntries build rest (count + 1)
    else []

/-- Sort-mode constants, ctop.c lines 153-158. -/
def SORT_CPU_LAZY : ℕ := 0

def SORT_CPU_DIRECT : ℕ := 1

def SORT_MEM : ℕ := 2

def SORT_PID : ℕ := 3

def SORT_NAME : ℕ := 4

/-- ASCII tolower as applied by strcasecmp. -/
def tolowerByte (c : ℕ) : ℕ := if 65 ≤ c ∧ c ≤ 90 then c + 32 else c

/-- strcasecmp: case-insensitive C string comparison (sign-accurate). -/
def strcasecmp : List ℕ → List ℕ → ℤ
  | [], [] => 0
  | [], b :: _ => 0 - (tolowerByte b : ℤ)
  | a :: _, [] => (tolowerByte a : ℤ)
  | a :: as, b :: bs =>
    if tolowerByte a = tolowerByte b then strcasecmp as bs
    else (tolowerByte a : ℤ) - (tolowerByte b : ℤ)

/-- The shared secondary-sort-by-pid tail of compare_processes,
ctop.c lines 470-473. -/
def pidTiebreak (pa pb : ProcessInfo) : ℤ :=
  if pa.pid > pb.pid then 1 else if pa.pid < pb.pid then -1 else 0

/-- compare_processes from ctop.c lines 445-474.  Every switch case breaks
into the pid tail except SORT_NAME, which returns strcasecmp directly. -/
def compare_processes (mode : ℕ) (pa pb : ProcessInfo) : ℤ :=
  if mode = SORT_CPU_DIRECT then
    if pb.cpu_percent > pa.cpu_percent then 1
    else if pb.cpu_percent < pa.cpu_percent then -1
    else pidTiebreak pa pb
  else if mode = SORT_CPU_LAZY then
    if pb.cpu_percent_lazy > pa.cpu_percent_lazy then 1
    else if pb.cpu_percent_lazy < pa.cpu_percent_lazy then -1
    else pidTiebreak pa pb
  else if mode = SORT_MEM then
    if pb.mem_rss > pa.mem_rss then 1
    else if pb.mem_rss < pa.mem_rss then -1
    else pidTiebreak pa pb
  else if mode = SORT_PID then
    if pa.pid > pb.pid then 1
    else if pa.pid < pb.pid then -1
    else pidTiebreak pa pb
  else if mode = SORT_NAME then strcasecmp pa.name pb.name
  else pidTiebreak pa pb

/-- qsort at ctop.c line 614, modelled as a comparison sort ordered by the
comparator (qsort makes no stability promise; any comparator-consistent
result is modelled by the theorems through sortedness + permutation). -/
def insertByCmp (le : ProcessInfo → ProcessInfo → Bool) (a : ProcessInfo) :
    List ProcessInfo → List ProcessInfo
  | [] => [a]
  | b :: bs => if le a b then a :: b :: bs else b :: insertByCmp le a bs

def sortByCmp (le : ProcessInfo → ProcessInfo → Bool) :
    List ProcessInfo → List ProcessInfo
  | [] => []
  | a :: as => insertByCmp le a (sortByCmp le as)

/-- One /proc/meminfo reading (values in kB), ctop.c lines 283-296. -/
structure MemSample where
  total : ℕ
  free : ℕ
  available : ℕ
  buffers : ℕ
  cached : ℕ
  swap_total : ℕ
  swap_free : ℕ
  deriving DecidableEq

/-- One parsed /proc/diskstats line plus the device's sector size,
ctop.c lines 369-380. -/
structure DiskRaw where
  name : String
  read_sectors : ℕ
  write_sectors : ℕ
  sector_size : ℕ
  deriving DecidableEq

/-- DiskInfo from ctop.c lines 62-77 (the fields the delta engine touches). -/
structure DiskInfo where
  name : String
  read_sectors : ℕ
  write_sectors : ℕ
  read_speed : ℚ
  write_speed : ℚ
  history_rx : List ℤ
  history_tx : List ℤ
  deriving DecidableEq

/-- One line of /proc/stat that begins with "cpu": either the overall
aggregate line ("cpu ") or a per-core line ("cpuN"). -/
inductive StatLine where
  | overall (s : CpuSample)
  | core (n : ℕ) (s : CpuSample)
  deriving DecidableEq

/-- SystemStats from ctop.c lines 106-138 (battery metadata omitted: no
claim touches it).  The fixed cores array is modelled as a map from core
index to CoreStat. -/
structure SystemStats where
  num_cores : ℕ
  cores : ℕ → CoreStat
  overall : CoreStat
  total_mem : ℕ
  free_mem : ℕ
  available_mem : ℕ
  buffers : ℕ
  cached : ℕ
  swap_total : ℕ
  swap_free : ℕ
  mem_percent : ℚ
  swap_percent : ℚ
  processes : List ProcessInfo
  cpu_history : List ℤ
  mem_history : List ℤ
  history_index : ℕ
  prev_net_rx : ℕ
  prev_net_tx : ℕ
  net_rx_speed : ℚ
  net_tx_speed : ℚ
  net_history_rx : List ℤ
  net_history_tx : List ℤ
  disks : List DiskInfo

/-- One iteration of the parse_cpu_stats line loop, ctop.c lines 232-270:
the overall line updates `overall`; a per-core line with index below
MAX_CPU_CORES updates that core and possibly raises num_cores. -/
def applyStatLine (st : SystemStats) : StatLine → SystemStats
  | .overall s => { st with overall := updateCore st.overall s }
  | .core n s =>
    if n < MAX_CPU_CORES then
      { st with
        num_cores := if st.num_cores ≤ n then n + 1 else st.num_cores
        cores := Function.update st.cores n (updateCore (st.cores n) s) }
    else st

/-- parse_cpu_stats, ctop.c Lines 226-274: fold the stat lines, then write
the overall percent (cast to int) into cpu_history at the current global
cursor. -/
def parse_cpu_stats (st : SystemStats) (lines : List StatLine) : SystemStats :=
  let st1 := lines.foldl applyStatLine st
  { st1 with
    cpu_history := st1.cpu_history.set st1.history_index (ctrunc st1.overall.percent) }

/-- parse_meminfo, ctop.c lines 276-312: store the sample, derive the
memory and swap percents (u64 wraparound subtraction as in C), and write
the memory percent into mem_history at the current global cursor. -/
def parse_meminfo (st : SystemStats) (m : MemSample) : SystemStats :=
  let mem_percent : ℚ :=
    if m.total > 0 then ((sub64 m.total m.available : ℕ) : ℚ) * 100 / (m.total : ℚ)
    else st.mem_percent
  let swap_percent : ℚ :=
    if m.swap_total > 0 then
      ((sub64 m.swap_total m.swap_free : ℕ) : ℚ) * 100 / (m.swap_total : ℚ)
    else st.swap_percent
  { st with
    total_mem := m.total
    free_mem := m.free
    available_mem := m.available
    buffers := m.buffers
    cached := m.cached
    swap_total := m.swap_total
    swap_free := m.swap_free
    mem_percent := mem_percent
    swap_percent := swap_percent
    mem_history := st.mem_history.set st.history_index (ctrunc mem_percent) }

/-- parse_net_stats, ctop.c lines 314-348: given the summed non-loopback
rx/tx byte totals, compute the speeds as the wrapped u64 byte difference
divided by 1024 whenever a previous reading exists (guarded only on
prev_net_rx > 0, exactly as the C), write the scaled speeds into the net
history rings at the current global cursor, and store the totals. -/
def parse_net_stats (st : SystemStats) (total_rx total_tx : ℕ) : SystemStats :=
  let net_rx_speed : ℚ :=
    if st.prev_net_rx > 0 then ((sub64 total_rx st.prev_net_rx : ℕ) : ℚ) / 1024
    else st.net_rx_speed
  let net_tx_speed : ℚ :=
    if st.prev_net_rx > 0 then ((sub64 total_tx st.prev_net_tx : ℕ) : ℚ) / 1024
    else st.net_tx_speed
  { st with
    net_rx_speed := net_rx_speed
    net_tx_speed := net_tx_speed
    net_history_rx := st.net_history_rx.set st.history_index (ctrunc (net_rx_speed / 100))
    net_history_tx := st.net_history_tx.set st.history_index (ctrunc (net_tx_speed / 100))
    prev_net_rx := total_rx
    prev_net_tx := total_tx }

/-- The virtual-device name filter of parse_disk_stats, ctop.c lines 376-378. -/
def diskFiltered (name : String) : Bool :=
  name.startsWith "loop" || name.startsWith "ram" || name.startsWith "dm-"

/-- The disk-building loop of parse_disk_stats, ctop.c lines 369-405: while
fewer than MAX_DISKS devices were collected, skip filtered names, match the
previous poll's entry by name (first match) to derive byte-diff speeds and
carry the history rings (a fresh device starts from the memset-zero rings),
and write the scaled speeds at the given (pre-advance) cursor. -/
def buildDisks (old : List DiskInfo) (hidx : ℕ) :
    List DiskRaw → ℕ → List DiskInfo
  | [], _ => []
  | r :: rest, count =>
    if count < MAX_DISKS then
      if diskFiltered r.name then buildDisks old hidx rest count
      else
        let matched := old.find? (fun d => d.name == r.name)
        let read_speed : ℚ :=
          match matched with
          | some d => ((sub64 r.read_sectors d.read_sectors * r.sector_size % 2 ^ 64 : ℕ) : ℚ) / 1024
          | none => 0
        let write_speed : ℚ :=
          match matched with
          | some d => ((sub64 r.write_sectors d.write_sectors * r.sector_size % 2 ^ 64 : ℕ) : ℚ) / 1024
          | none => 0
        let hrx :=
          match matched with
          | some d => d.history_rx
          | none => List.replicate HISTORY_SIZE 0
        let htx :=
          match matched with
          | some d => d.history_tx
          | none => List.replicate HISTORY_SIZE 0
        { name := r.name
          read_sectors := r.read_sectors
          write_sectors := r.write_sectors
          read_speed := read_speed
          write_speed := write_speed
          history_rx := hrx.set hidx (ctrunc (read_speed / 100))
          history_tx := htx.set hidx (ctrunc (write_speed / 100)) } ::
          buildDisks old hidx rest (count + 1)
    else []

/-- parse_disk_stats, ctop.c lines 361-410. -/
def parse_disk_stats (st : SystemStats) (lines : List DiskRaw) : SystemStats :=
  { st with disks := buildDisks st.disks st.history_index lines 0 }

/-- parse_processes, ctop.c lines 476-615: save the previous process list,
rebuild the table from the current snapshot entries (bounded admission),
and sort with compare_processes. -/
def parse_processes (st : SystemStats) (clk : ℤ) (elapsed : ℚ) (mode : ℕ)
    (entries : List (Option ProcRaw)) : SystemStats :=
  let prev_procs := st.processes
  let scanned :=
    scanEntries (buildProcess prev_procs clk elapsed st.num_cores st.total_mem) entries 0
  { st with processes := sortByCmp (fun a b => compare_processes mode a b ≤ 0) scanned }

/-- One refresh tick's externally read inputs (spec section 6): the parsed
/proc records, the poll timing, and the current sort mode. -/
structure TickInput where
  statLines : List StatLine
  mem : MemSample
  net_rx : ℕ
  net_tx : ℕ
  diskLines : List DiskRaw
  procEntries : List (Option ProcRaw)
  clk : ℤ
  elapsed : ℚ
  sortMode : ℕ

/-- update_stats, ctop.c lines 617-625: run the parses in order, then
advance the global history cursor once (parse_battery touches only the
omitted battery metadata fields). -/
def update_stats (st : SystemStats) (i : TickInput) : SystemStats :=
  let st1 := parse_cpu_stats st i.statLines
  let st2 := parse_meminfo st1 i.mem
  let st3 := parse_net_stats st2 i.net_rx i.net_tx
  let st4 := parse_disk_stats st3 i.diskLines
  let st5 := parse_processes st4 i.clk i.elapsed i.sortMode i.procEntries
  { st5 with history_index := (st5.history_index + 1) % HISTORY_SIZE }

/-- The network rate as worded by the spec (claim C3): (current_bytes −
previous_bytes) / elapsed_seconds expressed in KiB/s, with a negative delta
(counter wrap or reset) treated as zero rate.  Stated from the spec's words
for comparison against `parse_net_stats`. -/
def spec_net_rate (prev cur : ℕ) (elapsed : ℚ) : ℚ :=
  if prev ≤ cur then (((cur - prev : ℕ) : ℚ) / elapsed) / 1024 else 0

/-- Recognizer for a per-core stat line of a given core index. -/
def isCoreLine (n : ℕ) : StatLine → Bool
  | .core m _ => m == n
  | .overall _ => false

/-- A baseline concrete SystemStats used by witnesses and counterexamples. -/
def demoStats : SystemStats :=
  { num_cores := 1
    cores := fun _ => ⟨0, 0, 0, [], 0⟩
    overall := ⟨0, 0, 0, [], 0⟩
    total_mem := 0
    free_mem := 0
    available_mem := 0
    buffers := 0
    cached := 0
    swap_total := 0
    swap_free := 0
    mem_percent := 0
    swap_percent := 0
    processes := []
    cpu_history := []
    mem_history := []
    history_index := 0
    prev_net_rx := 1000000
    prev_net_tx := 0
    net_rx_speed := 0
    net_tx_speed := 0
    net_history_rx := []
    net_history_tx := []
    disks := [] }

/-- A previous-poll process entry with smoothed CPU% 10 (claim C4). -/
def procC4prev : ProcessInfo :=
  { pid := 1
    name := [97]
    cmdline := []
    user := []
    state := 82
    prev_utime := 0
    prev_stime := 0
    mem_rss := 0
    cpu_percent := 0
    cpu_percent_lazy := 10
    mem_percent := 0 }

/-- The same pid's current-poll raw record: 100 fresh ticks (claim C4). -/
def procC4raw : ProcRaw :=
  { pid := 1
    name := [97]
    state := 82
    utime := 100
    stime := 0
    mem_rss := 0
    user := []
    cmdline := [] }

/-- Equality of the primary sort key of each sort mode (claim C5). -/
def primaryKeyEq (mode : ℕ) (a b : ProcessInfo) : Prop :=
  if mode = SORT_CPU_DIRECT then a.cpu_percent = b.cpu_percent
  else if mode = SORT_CPU_LAZY then a.cpu_percent_lazy = b.cpu_percent_lazy
  else if mode = SORT_MEM then a.mem_rss = b.mem_rss
  else if mode = SORT_PID then True
  else strcasecmp a.name b.name = 0

/-- Claim C5 counterexample data: two processes with the same name but
pids 2 and 1. -/
def procC5a : ProcessInfo :=
  { pid := 2
    name := [97]
    cmdline := []
    user := []
    state := 82
    prev_utime := 0
    prev_stime := 0
    mem_rss := 0
    cpu_percent := 0
    cpu_percent_lazy := 0
    mem_percent := 0 }

def procC5b : ProcessInfo := { procC5a with pid := 1 }

/-- Claim C10 witness data: one tick's input with one overall line and one
core-0 line. -/
def tickC10 : TickInput :=
  { statLines := [StatLine.overall ⟨1, 0, 0, 0, 0, 0, 0, 0⟩,
      StatLine.core 0 ⟨1, 0, 0, 0, 0, 0, 0, 0⟩]
    mem := ⟨0, 0, 0, 0, 0, 0, 0⟩
    net_rx := 0
    net_tx := 0
    diskLines := []
    procEntries := []
    clk := 100
    elapsed := 1
    sortMode := 0 }

/-- Claim C5 witness data: equal smoothed CPU% keys, pids 1 and 2. -/
def procC5w1 : ProcessInfo := { procC5a with pid := 1, cpu_percent_lazy := 5 }

def procC5w2 : ProcessInfo := { procC5a with pid := 2, cpu_percent_lazy := 5 }

/-- A history ring buffer: fixed backing storage plus a write cursor
(spec section 4.4; in ctop every series has capacity HISTORY_SIZE = 120,
while claim C6 quantifies over every capacity N = data.length). -/
structure RingBuffer where
  data : List ℚ
  cursor : ℕ
  deriving DecidableEq

/-- The write operation, ctop.c lines 265-266: store the value at the
cursor, then advance the cursor modulo the capacity. -/
def rbWrite (rb : RingBuffer) (v : ℚ) : RingBuffer :=
  ⟨rb.data.set rb.cursor v, (rb.cursor + 1) % rb.data.length⟩

def rbWriteAll (rb : RingBuffer) (vs : List ℚ) : RingBuffer := vs.foldl rbWrite rb

/-- The read-for-display operation of draw_graph, ctop.c lines 637-640:
starting offset (cursor − W + N) mod N, then min(W, N) cells read forward
with wraparound. -/
def rbRead (rb : RingBuffer) (w : ℕ) : List ℚ :=
  let n := rb.data.length
  let start := (rb.cursor + n - w) % n
  (List.range (min w n)).map (fun col => rb.data.getD ((start + col) % n) 0)

/-- The buffer contents in logical oldest-to-newest order (spec: readers
interpret the buffer as logically ordered oldest → newest starting at the
cursor). -/
def rbLogical (rb : RingBuffer) : List ℚ :=
  rb.data.drop rb.cursor ++ rb.data.take rb.cursor

/-- Pane visibility flags, ctop.c lines 141-145. -/
structure PaneFlags where
  show_cpu : Bool
  show_mem : Bool
  show_disks : Bool
  show_net : Bool
  show_proc : Bool
  deriving DecidableEq

/-- C truth-value of a visibility flag (the g_show_* ints are 0 or 1). -/
def boolToNat (b : Bool) : ℕ := if b then 1 else 0

/-- calculate_minimum_size, ctop.c lines 1166-1205: minimum width 80
(raised to the pane-selection width requirement if larger), and minimum
height = top bar + help bar + CPU base height + bottom-section height,
floored at 10. -/
def calculate_minimum_size (f : PaneFlags) : ℕ × ℕ :=
  let min_w0 : ℕ := 80
  let num_left_panes := boolToNat f.show_mem + boolToNat f.show_disks + boolToNat f.show_net
  let base_h : ℕ := 2
  let content_h0 : ℕ := if f.show_cpu then 5 else 0
  let step :=
    if num_left_panes > 0 ∨ f.show_proc then
      let left_panes_h := num_left_panes * 4
      let proc_h := if f.show_proc then 6 else 0
      let bottom_h := if left_panes_h > proc_h then left_panes_h else proc_h
      let bottom_h2 := if bottom_h < 6 then 6 else bottom_h
      let min_proc_width := if f.show_proc then 45 else 0
      let min_left_width := if num_left_panes > 0 then 20 else 0
      let required_width := min_left_width + min_proc_width + 4
      (content_h0 + bottom_h2, if required_width > min_w0 then required_width else min_w0)
    else (content_h0, min_w0)
  let min_h := base_h + step.1
  let min_h2 := if min_h < 10 then 10 else min_h
  (step.2, min_h2)

/-- The too-small decision of draw_screen, ctop.c lines 1258-1264: the
diagnostic error screen is drawn — and no pane layout at all — exactly
when the terminal is strictly smaller than the computed minimum in either
dimension. -/
def draw_screen_too_small (w h : ℕ) (f : PaneFlags) : Bool :=
  decide (w < (calculate_minimum_size f).1) || decide (h < (calculate_minimum_size f).2)

/-- core_label_width, ctop.c line 720. -/
def core_label_width (numCores : ℕ) : ℕ :=
  if numCores ≥ 100 then 4 else if numCores ≥ 10 then 3 else 2

/-- The even-distribution search of the two-line mode, ctop.c lines
739-755, descending from max_cores_per_row (the fuel argument); C int
arithmetic for cores_in_last_row is modelled over ℤ (it is negative-free
only when numCores > 0).  Returns (best_cores_per_row, best_rows). -/
def bestSearchAux (numCores avail : ℕ) : ℕ → ℕ × ℕ → ℕ × ℕ
  | 0, best => best
  | t + 1, best =>
    let tc := t + 1
    let rows_needed := (numCores + tc - 1) / tc
    if rows_needed * 2 > avail then best
    else
      let cores_in_last : ℤ := (numCores : ℤ) - ((rows_needed : ℤ) - 1) * (tc : ℤ)
      if cores_in_last = (tc : ℤ) then (tc, rows_needed)
      else if best.2 ≠ rows_needed ∧ rows_needed ≤ avail / 2 then
        bestSearchAux numCores avail t (tc, rows_needed)
      else bestSearchAux numCores avail t best

/-- One displayed core's cell: the core index and the rectangle (origin,
width, height) its label/bar/sparkline occupy. -/
structure CoreCell where
  core : ℕ
  cx : ℕ
  cy : ℕ
  cw : ℕ
  ch : ℕ
  deriving DecidableEq

/-- The per-core sub-layout of draw_cpu_section, ctop.c lines 694-812,
reduced to cell geometry.  The early returns for h < 3 / h < 4 and for
core_start_y past the pane bottom yield no cells; otherwise the mode
decision at line 730 selects the two-line grid (with the even-distribution
search and the item-width recalculation of lines 757-762) or the one-line
grid (with truncation to what fits, lines 790-795); each loop stops at the
first row that would cross the pane bottom (the break at lines 771/801),
modelled by takeWhile. -/
def draw_cpu_section_cells (numCores x y w h : ℕ) : List CoreCell :=
  if h < 4 then []
  else
    let graph_h : ℕ := if h > 8 then 2 else 1
    let core_start_y := y + 1 + graph_h
    if core_start_y ≥ y + h - 1 then []
    else
      let clw := core_label_width numCores
      let avail := (y + h - 1) - core_start_y
      let tliw := clw + 12
      let max_cpr0 := (w - 2) / tliw
      let max_cpr := if max_cpr0 < 1 then 1 else max_cpr0
      let min_rows := (numCores + max_cpr - 1) / max_cpr
      if avail ≥ min_rows * 2 then
        let cpr := (bestSearchAux numCores avail max_cpr (max_cpr, min_rows)).1
        let aiw0 := (w - 2) / cpr
        let aiw := if aiw0 < tliw then tliw else aiw0
        ((List.range (min numCores MAX_CPU_CORES)).takeWhile
            (fun i => core_start_y + (i / cpr) * 2 + 1 < y + h - 1)).map
          (fun i => ⟨i, x + (i % cpr) * aiw, core_start_y + (i / cpr) * 2, aiw, 2⟩)
      else
        let sliw := clw + 6
        let cpr0 := (w - 2) / sliw
        let cpr := if cpr0 < 1 then 1 else cpr0
        let maxDisp := min (cpr * avail) numCores
        ((List.range (min maxDisp MAX_CPU_CORES)).takeWhile
            (fun i => core_start_y + i / cpr < y + h - 1)).map
          (fun i => ⟨i, x + (i % cpr) * sliw, core_start_y + i / cpr, sliw, 1⟩)

/-- The mode decision of ctop.c line 730, as a function of the same
inputs: two-line iff the available core rows fit every core at two rows
each using the widest per-row core count that fits. -/
def uses_two_line (numCores y w h : ℕ) : Bool :=
  let graph_h : ℕ := if h > 8 then 2 else 1
  let core_start_y := y + 1 + graph_h
  let avail := (y + h - 1) - core_start_y
  let clw := core_label_width numCores
  let tliw := clw + 12
  let max_cpr0 := (w - 2) / tliw
  let max_cpr := if max_cpr0 < 1 then 1 else max_cpr0
  let min_rows := (numCores + max_cpr - 1) / max_cpr
  decide (avail ≥ min_rows * 2)

/-- Disjointness of two cells: their column ranges or row ranges do not
overlap (claim C8). -/
def cellsDisjoint (c d : CoreCell) : Prop :=
  c.cx + c.cw ≤ d.cx ∨ d.cx + d.cw ≤ c.cx ∨ c.cy + c.ch ≤ d.cy ∨ d.cy + d.ch ≤ c.cy

/-- A cell lies inside the pane rectangle (x, y, w, h) (claim C8). -/
def cellInPane (x y w h : ℕ) (c : CoreCell) : Prop :=
  x ≤ c.cx ∧ c.cx + c.cw ≤ x + w ∧ y ≤ c.cy ∧ c.cy + c.ch ≤ y + h

end Ctop

namespace Ctop

theorem sub64_of_le {a b : ℕ} (hba : b ≤ a) (ha : a < 2 ^ 64) : sub64 a b = a - b := by
  unfold sub64
  omega

theorem sub64_self (a : ℕ) : sub64 a a = 0 := by
  unfold sub64
  omega

theorem sampleTotal_eq (s : CpuSample) : sampleTotal s = sampleTotalRaw s % 2 ^ 64 := rfl

theorem sampleIdle_eq (s : CpuSample) : sampleIdle s = sampleIdleRaw s % 2 ^ 64 := rfl

theorem updateCore_percent (core : CoreStat) (s : CpuSample) :
    (updateCore core s).percent =
      if core.prev_total > 0 then
        if sub64 (sampleTotal s) core.prev_total > 0 then
          ((sub64 (sub64 (sampleTotal s) core.prev_total)
              (sub64 (sampleIdle s) core.prev_idle) : ℚ) * 100) /
            ((sub64 (sampleTotal s) core.prev_total : ℕ) : ℚ)
        else core.percent
      else core.percent := rfl

theorem updateCore_prev_total (core : CoreStat) (s : CpuSample) :
    (updateCore core s).prev_total = sampleTotal s := rfl

theorem updateCore_prev_idle (core : CoreStat) (s : CpuSample) :
    (updateCore core s).prev_idle = sampleIdle s := rfl

/-- C1 (amended): for a pair of CPU samples of the same core in which every
one of the eight tick categories is non-decreasing, whose counters are below
2^64, and whose total strictly increases (`total_diff > 0`), the percent
computed by `parse_cpu_stats` equals `100 * (total_diff - idle_diff) /
total_diff` exactly (float arithmetic modelled over ℚ) and lies in
[0, 100].  The original claim, quantified over arbitrary sample pairs with
`total_diff > 0`, is refuted by `spec_c1_counterexample`: when a category
decreases while the total still increases, the unsigned subtraction at
ctop.c line 259 wraps and the percent exceeds 100. -/
theorem spec_c1_cpu_percent_formula (core0 : CoreStat) (sp sc : CpuSample)
    (hu : sp.user ≤ sc.user) (hn : sp.nice ≤ sc.nice) (hs : sp.system ≤ sc.system)
    (hi : sp.idle ≤ sc.idle) (hw : sp.iowait ≤ sc.iowait) (hq : sp.irq ≤ sc.irq)
    (hso : sp.softirq ≤ sc.softirq) (hst : sp.steal ≤ sc.steal)
    (hbound : sampleTotalRaw sc < 2 ^ 64)
    (hprev : 0 < sampleTotalRaw sp)
    (hdiff : sampleTotalRaw sp < sampleTotalRaw sc) :
    (updateCore (updateCore core0 sp) sc).percent =
      (((sampleTotalRaw sc - sampleTotalRaw sp) -
          (sampleIdleRaw sc - sampleIdleRaw sp) : ℕ) : ℚ) * 100 /
        ((sampleTotalRaw sc - sampleTotalRaw sp : ℕ) : ℚ) ∧
    0 ≤ (updateCore (updateCore core0 sp) sc).percent ∧
    (updateCore (updateCore core0 sp) sc).percent ≤ 100 := by
  have hsp64 : sampleTotalRaw sp < 2 ^ 64 := lt_trans hdiff hbound
  have hidp : sampleIdleRaw sp ≤ sampleTotalRaw sp := by
    unfold sampleIdleRaw sampleTotalRaw; omega
  have hidc : sampleIdleRaw sc ≤ sampleTotalRaw sc := by
    unfold sampleIdleRaw sampleTotalRaw; omega
  have hidmono : sampleIdleRaw sp ≤ sampleIdleRaw sc := by
    unfold sampleIdleRaw; omega
  have hkey : sampleIdleRaw sc - sampleIdleRaw sp ≤ sampleTotalRaw sc - sampleTotalRaw sp := by
    unfold sampleIdleRaw sampleTotalRaw at *; omega
  have hTp : sampleTotal sp = sampleTotalRaw sp := by
    rw [sampleTotal_eq]; exact Nat.mod_eq_of_lt hsp64
  have hTc : sampleTotal sc = sampleTotalRaw sc := by
    rw [sampleTotal_eq]; exact Nat.mod_eq_of_lt hbound
  have hIp : sampleIdle sp = sampleIdleRaw sp := by
    rw [sampleIdle_eq]; exact Nat.mod_eq_of_lt (lt_of_le_of_lt hidp hsp64)
  have hIc : sampleIdle sc = sampleIdleRaw sc := by
    rw [sampleIdle_eq]; exact Nat.mod_eq_of_lt (lt_of_le_of_lt hidc hbound)
  have hTd : sub64 (sampleTotal sc) (sampleTotal sp) =
      sampleTotalRaw sc - sampleTotalRaw sp := by
    rw [hTc, hTp]; exact sub64_of_le (le_of_lt hdiff) hbound
  have hId : sub64 (sampleIdle sc) (sampleIdle sp) =
      sampleIdleRaw sc - sampleIdleRaw sp := by
    rw [hIc, hIp]; exact sub64_of_le hidmono (lt_of_le_of_lt hidc hbound)
  have hpos : 0 < sampleTotalRaw sc - sampleTotalRaw sp := by omega
  have hNum : sub64 (sampleTotalRaw sc - sampleTotalRaw sp)
      (sampleIdleRaw sc - sampleIdleRaw sp) =
      (sampleTotalRaw sc - sampleTotalRaw sp) - (sampleIdleRaw sc - sampleIdleRaw sp) :=
    sub64_of_le hkey (by omega)
  have hper : (updateCore (updateCore core0 sp) sc).percent =
      (((sampleTotalRaw sc - sampleTotalRaw sp) -
          (sampleIdleRaw sc - sampleIdleRaw sp) : ℕ) : ℚ) * 100 /
        ((sampleTotalRaw sc - sampleTotalRaw sp : ℕ) : ℚ) := by
    rw [updateCore_percent, updateCore_prev_total, updateCore_prev_idle, hTd, hId, hNum]
    rw [if_pos (by rw [hTp]; exact hprev), if_pos hpos]
  refine ⟨hper, ?_, ?_⟩
  · rw [hper]; positivity
  · rw [hper]
    have htQ : (0 : ℚ) < ((sampleTotalRaw sc - sampleTotalRaw sp : ℕ) : ℚ) := by
      exact_mod_cast hpos
    rw [div_le_iff₀ htQ]
    have hle : (((sampleTotalRaw sc - sampleTotalRaw sp) -
        (sampleIdleRaw sc - sampleIdleRaw sp) : ℕ) : ℚ) ≤
        ((sampleTotalRaw sc - sampleTotalRaw sp : ℕ) : ℚ) := by
      exact_mod_cast Nat.sub_le _ _
    nlinarith

/-- C1 witness: the spec's end-to-end scenario, previous overall sample
{user 100, idle 400}, current {user 150, idle 420}: totals 500 → 570,
idle 400 → 420, so percent = 100 * (70 - 20) / 70 = 500/7 ≈ 71.4%. -/
theorem spec_c1_cpu_percent_formula_witness :
    sampleTotalRaw (⟨100, 0, 0, 400, 0, 0, 0, 0⟩ : CpuSample) <
      sampleTotalRaw (⟨150, 0, 0, 420, 0, 0, 0, 0⟩ : CpuSample) ∧
    (updateCore (updateCore ⟨0, 0, 0, [], 0⟩ ⟨100, 0, 0, 400, 0, 0, 0, 0⟩)
        ⟨150, 0, 0, 420, 0, 0, 0, 0⟩).percent = 500 / 7 := by
  refine ⟨by decide, ?_⟩
  have h := spec_c1_cpu_percent_formula ⟨0, 0, 0, [], 0⟩ ⟨100, 0, 0, 400, 0, 0, 0, 0⟩
    ⟨150, 0, 0, 420, 0, 0, 0, 0⟩ (by decide) (by decide) (by decide) (by decide)
    (by decide) (by decide) (by decide) (by decide) (by decide) (by decide) (by decide)
  rw [h.1]
  norm_num [sampleTotalRaw, sampleIdleRaw]

/-- C1 counterexample: the pair prev = {user 10}, cur = {idle 11} has
`total_diff = 1 > 0`, yet because the user counter decreased the unsigned
`idle_diff` wraps modulo 2^64 and the computed percent is
(2^64 - 10) * 100, far outside [0, 100]. -/
theorem spec_c1_counterexample :
    sampleTotalRaw (⟨10, 0, 0, 0, 0, 0, 0, 0⟩ : CpuSample) <
      sampleTotalRaw (⟨0, 0, 0, 11, 0, 0, 0, 0⟩ : CpuSample) ∧
    ¬ (updateCore (updateCore ⟨0, 0, 0, [], 0⟩ ⟨10, 0, 0, 0, 0, 0, 0, 0⟩)
        ⟨0, 0, 0, 11, 0, 0, 0, 0⟩).percent ≤ 100 := by
  refine ⟨by decide, ?_⟩
  have h : (updateCore (updateCore ⟨0, 0, 0, [], 0⟩ ⟨10, 0, 0, 0, 0, 0, 0, 0⟩)
      ⟨0, 0, 0, 11, 0, 0, 0, 0⟩).percent = 1844674407370955160600 := by
    rw [updateCore_percent, updateCore_prev_total, updateCore_prev_idle]
    norm_num [sampleTotal, sampleIdle, sub64]
  rw [h]
  norm_num

/-- C2 (amended): when the summed tick counters are unchanged between the
two polls (`total_diff = 0`), `parse_cpu_stats` holds the previously
computed percent unchanged.  The original claim's `total_diff ≤ 0` domain
also covered decreased counters (a reset); `spec_c2_counterexample` shows
that in that case the unsigned subtraction at ctop.c line 258 wraps, the
`total_diff > 0` guard passes, and the percent is recomputed instead of
held. -/
theorem spec_c2_hold_on_zero_total_diff (core : CoreStat) (s : CpuSample)
    (h : sampleTotal s = core.prev_total) :
    (updateCore core s).percent = core.percent := by
  rw [updateCore_percent, h]
  by_cases h0 : core.prev_total > 0
  · rw [if_pos h0, sub64_self]
    simp
  · rw [if_neg h0]

/-- C2 witness: a core with previous percent 42 and unchanged total 7
keeps percent 42. -/
theorem spec_c2_hold_on_zero_total_diff_witness :
    sampleTotal (⟨7, 0, 0, 0, 0, 0, 0, 0⟩ : CpuSample) =
      (⟨7, 0, 42, [], 3⟩ : CoreStat).prev_total ∧
    (updateCore ⟨7, 0, 42, [], 3⟩ ⟨7, 0, 0, 0, 0, 0, 0, 0⟩).percent = 42 :=
  ⟨by decide, by rw [spec_c2_hold_on_zero_total_diff _ _ (by decide)]⟩

/-- C2 counterexample: a counter reset (total 100 → 50, so total_diff ≤ 0
mathematically) does not hold the previous percent 50: the wrapped unsigned
difference passes the `total_diff > 0` guard and the percent becomes 100. -/
theorem spec_c2_counterexample :
    sampleTotalRaw (⟨50, 0, 0, 0, 0, 0, 0, 0⟩ : CpuSample) ≤
      (⟨100, 0, 50, [], 0⟩ : CoreStat).prev_total ∧
    (updateCore ⟨100, 0, 50, [], 0⟩ ⟨50, 0, 0, 0, 0, 0, 0, 0⟩).percent ≠
      (⟨100, 0, 50, [], 0⟩ : CoreStat).percent := by
  refine ⟨by decide, ?_⟩
  have h : (updateCore ⟨100, 0, 50, [], 0⟩ ⟨50, 0, 0, 0, 0, 0, 0, 0⟩).percent = 100 := by
    rw [updateCore_percent]
    norm_num [sampleTotal, sampleIdle, sub64]
  rw [h]
  norm_num

/-- C3 (amended): when a previous reading exists (prev_net_rx > 0) and the
byte counter did not decrease, `parse_net_stats` computes the rate as the
byte delta divided by 1024 — the delta in KiB for the tick.  The code never
divides by elapsed_seconds, so this equals the spec's
delta/elapsed KiB/s only when elapsed = 1; and a negative delta wraps
modulo 2^64 instead of being zeroed (see `spec_c3_counterexample`).  The
spec's concrete scenario (rx 1,000,000 → 1,050,000) yields 48.828125,
within rounding tolerance of the claimed 48.83 KiB/s, because there
elapsed = 1.0. -/
theorem spec_c3_net_rate (st : SystemStats) (total_rx total_tx : ℕ)
    (hprev : 0 < st.prev_net_rx) (hle : st.prev_net_rx ≤ total_rx)
    (hbound : total_rx < 2 ^ 64) :
    (parse_net_stats st total_rx total_tx).net_rx_speed =
      ((total_rx - st.prev_net_rx : ℕ) : ℚ) / 1024 := by
  show (if st.prev_net_rx > 0 then ((sub64 total_rx st.prev_net_rx : ℕ) : ℚ) / 1024
      else st.net_rx_speed) = _
  rw [if_pos hprev, sub64_of_le hle hbound]

/-- C3 witness: the spec's end-to-end network scenario, previous
rx = 1,000,000 bytes and current rx = 1,050,000 bytes: the computed rate is
3125/64 = 48.828125, within 0.01 of the claimed 48.83. -/
theorem spec_c3_net_rate_witness :
    (parse_net_stats demoStats 1050000 0).net_rx_speed = 3125 / 64 ∧
    |(3125 / 64 : ℚ) - 4883 / 100| ≤ 1 / 100 := by
  constructor
  · have h := spec_c3_net_rate demoStats 1050000 0 (by norm_num [demoStats])
      (by norm_num [demoStats]) (by norm_num)
    rw [h]
    norm_num [demoStats]
  · rw [abs_le]
    norm_num

/-- C3 counterexample: (a) with elapsed = 2 s the code's rate (2 KiB) is
not the spec's (current − previous)/elapsed KiB/s (1 KiB/s), because the
code ignores elapsed_seconds; (b) a decreased counter (2048 → 1024) does
not give zero rate: the u64 difference wraps to (2^64 − 1024)/1024. -/
theorem spec_c3_counterexample :
    (parse_net_stats { demoStats with prev_net_rx := 1024 } 3072 0).net_rx_speed ≠
      spec_net_rate 1024 3072 2 ∧
    (parse_net_stats { demoStats with prev_net_rx := 2048 } 1024 0).net_rx_speed ≠ 0 := by
  constructor
  · have h : (parse_net_stats { demoStats with prev_net_rx := 1024 } 3072 0).net_rx_speed
        = 2 := by
      show (if (1024 : ℕ) > 0 then ((sub64 3072 1024 : ℕ) : ℚ) / 1024
          else demoStats.net_rx_speed) = 2
      norm_num [sub64]
    rw [h]
    norm_num [spec_net_rate]
  · have h : (parse_net_stats { demoStats with prev_net_rx := 2048 } 1024 0).net_rx_speed
        = 18014398509481983 := by
      show (if (2048 : ℕ) > 0 then ((sub64 1024 2048 : ℕ) : ℚ) / 1024
          else demoStats.net_rx_speed) = 18014398509481983
      norm_num [sub64]
    rw [h]
    norm_num

/-- C4 (code bug): for a process whose pid is found in the previous poll's
set, the spec says the updated smoothed CPU% blends the entity's previous
smoothed value: 0.7 * previous_smoothed + 0.3 * instant.  Evaluating the
code's per-entry update with previous smoothed value 10 and fresh instant
value 100 (100 ticks, clk 100, elapsed 1 s, 1 core): the instant percent is
100, but the smoothed result is 30 = 0.7 * 0 + 0.3 * 100, not the claimed
37 = 0.7 * 10 + 0.3 * 100 — the blend at ctop.c line 591 reads the
table slot field that the memset at line 502 just zeroed, never the
previous poll's smoothed value, contradicting the code's own
"exponential moving average" comment at line 589. -/
theorem spec_c4_smoothing_reads_zeroed_field :
    (buildProcess [procC4prev] 100 1 1 1000 procC4raw).cpu_percent = 100 ∧
    (buildProcess [procC4prev] 100 1 1 1000 procC4raw).cpu_percent_lazy = 30 ∧
    procC4prev.cpu_percent_lazy * (7 / 10) +
        (buildProcess [procC4prev] 100 1 1 1000 procC4raw).cpu_percent * (3 / 10) = 37 ∧
    (buildProcess [procC4prev] 100 1 1 1000 procC4raw).cpu_percent_lazy ≠ 37 := by
  have hfind : [procC4prev].find? (fun p => p.pid == procC4raw.pid) = some procC4prev := by
    norm_num [List.find?, procC4prev, procC4raw]
  have hcpu : (buildProcess [procC4prev] 100 1 1 1000 procC4raw).cpu_percent = 100 := by
    unfold buildProcess
    rw [hfind]
    norm_num [procC4prev, procC4raw]
  have hlazy : (buildProcess [procC4prev] 100 1 1 1000 procC4raw).cpu_percent_lazy = 30 := by
    unfold buildProcess
    rw [hfind]
    norm_num [procC4prev, procC4raw]
  refine ⟨hcpu, hlazy, ?_, ?_⟩
  · rw [hcpu]
    norm_num [procC4prev]
  · rw [hlazy]
    norm_num

theorem scanEntries_eq (build : ProcRaw → ProcessInfo) (entries : List (Option ProcRaw))
    (c : ℕ) :
    scanEntries build entries c =
      ((entries.filterMap id).take (MAX_PROCESSES - c)).map build := by
  induction entries generalizing c with
  | nil => simp [scanEntries]
  | cons e rest ih =>
    cases e with
    | none =>
      by_cases hc : c < MAX_PROCESSES
      · simp [scanEntries, hc, List.filterMap_cons, ih]
      · have h0 : MAX_PROCESSES - c = 0 := by omega
        simp [scanEntries, hc, List.filterMap_cons, h0]
    | some r =>
      by_cases hc : c < MAX_PROCESSES
      · have h1 : MAX_PROCESSES - c = (MAX_PROCESSES - (c + 1)) + 1 := by omega
        simp [scanEntries, hc, List.filterMap_cons, ih, h1]
      · have h0 : MAX_PROCESSES - c = 0 := by omega
        simp [scanEntries, hc, List.filterMap_cons, h0]

theorem insertByCmp_length (le : ProcessInfo → ProcessInfo → Bool) (a : ProcessInfo)
    (l : List ProcessInfo) : (insertByCmp le a l).length = l.length + 1 := by
  induction l with
  | nil => rfl
  | cons b bs ih =>
    unfold insertByCmp
    split
    · simp
    · simp [ih]

theorem sortByCmp_length (le : ProcessInfo → ProcessInfo → Bool) (l : List ProcessInfo) :
    (sortByCmp le l).length = l.length := by
  induction l with
  | nil => rfl
  | cons a as ih => simp [sortByCmp, insertByCmp_length, ih]

/-- C9: after every poll the tracked-process count never exceeds
MAX_PROCESSES = 512.  The admission loop of parse_processes produces
exactly the first 512 successfully read entries (in snapshot order, invalid
entries skipped) and silently drops the rest, so the table index written
(the running count) always stays below 512, and the sorted table the poll
publishes has at most 512 entries. -/
theorem spec_c9_max_processes (st : SystemStats) (clk : ℤ) (elapsed : ℚ) (mode : ℕ)
    (entries : List (Option ProcRaw)) :
    (parse_processes st clk elapsed mode entries).processes.length ≤ MAX_PROCESSES ∧
    scanEntries (buildProcess st.processes clk elapsed st.num_cores st.total_mem) entries 0 =
      ((entries.filterMap id).take MAX_PROCESSES).map
        (buildProcess st.processes clk elapsed st.num_cores st.total_mem) := by
  have h := scanEntries_eq (buildProcess st.processes clk elapsed st.num_cores st.total_mem)
    entries 0
  rw [Nat.sub_zero] at h
  refine ⟨?_, h⟩
  show (sortByCmp _ (scanEntries _ entries 0)).length ≤ MAX_PROCESSES
  rw [sortByCmp_length, h, List.length_map]
  exact List.length_take_le _ _

theorem compare_eq_pidTiebreak (mode : ℕ)
    (hm : mode = SORT_CPU_LAZY ∨ mode = SORT_CPU_DIRECT ∨ mode = SORT_MEM ∨ mode = SORT_PID)
    (a b : ProcessInfo) (hk : primaryKeyEq mode a b) :
    compare_processes mode a b = pidTiebreak a b := by
  rcases hm with h | h | h | h <;> subst h <;>
    simp only [primaryKeyEq, compare_processes, SORT_CPU_LAZY, SORT_CPU_DIRECT, SORT_MEM,
      SORT_PID, SORT_NAME] at hk ⊢
  · norm_num at hk ⊢
    rw [hk]
    simp
  · norm_num at hk ⊢
    rw [hk]
    simp
  · norm_num at hk ⊢
    rw [hk]
    simp
  · norm_num
    unfold pidTiebreak
    split_ifs <;> rfl

theorem pidTiebreak_nonpos (a b : ProcessInfo) : pidTiebreak a b ≤ 0 ↔ a.pid ≤ b.pid := by
  unfold pidTiebreak
  split_ifs <;> omega

theorem sorted_pid_of_sorted_cmp (mode : ℕ)
    (hm : mode = SORT_CPU_LAZY ∨ mode = SORT_CPU_DIRECT ∨ mode = SORT_MEM ∨ mode = SORT_PID)
    (l m : List ProcessInfo)
    (hkeys : ∀ a ∈ l, ∀ b ∈ l, primaryKeyEq mode a b)
    (hnodup : (l.map ProcessInfo.pid).Nodup)
    (hperm : m.Perm l)
    (hsort : m.Sorted (fun a b => compare_processes mode a b ≤ 0)) :
    m.Sorted (fun a b => a.pid < b.pid) := by
  have hne : l.Pairwise (fun a b => a.pid ≠ b.pid) := (List.pairwise_map).mp hnodup
  have hne' : m.Pairwise (fun a b => a.pid ≠ b.pid) :=
    (List.Perm.pairwise_iff (fun {a b} hab => Ne.symm hab) hperm).mpr hne
  have hle : m.Pairwise (fun a b => a.pid ≤ b.pid) := by
    refine List.Pairwise.imp_of_mem ?_ hsort
    intro a b ha hb hab
    have hk := hkeys a (hperm.mem_iff.mp ha) b (hperm.mem_iff.mp hb)
    rw [compare_eq_pidTiebreak mode hm a b hk, pidTiebreak_nonpos] at hab
    exact hab
  exact (hle.and hne').imp (fun hab => lt_of_le_of_ne hab.1 hab.2)

/-- C5 (amended): for the sort modes smoothed CPU%, instant CPU%, resident
memory, and pid, the comparator orders equal-primary-key processes by
ascending pid, so any comparator-sorted permutation of a distinct-pid
process set whose keys are all equal is in ascending-pid order and is
unique — repeated sorts of the identical input cannot reorder ties.  The
original claim also asserted this for the name mode, but the SORT_NAME case
of compare_processes returns strcasecmp directly without the pid fallback
(ctop.c line 467), refuted by `spec_c5_counterexample`. -/
theorem spec_c5_tiebreak (mode : ℕ)
    (hm : mode = SORT_CPU_LAZY ∨ mode = SORT_CPU_DIRECT ∨ mode = SORT_MEM ∨ mode = SORT_PID)
    (l l' : List ProcessInfo)
    (hkeys : ∀ a ∈ l, ∀ b ∈ l, primaryKeyEq mode a b)
    (hnodup : (l.map ProcessInfo.pid).Nodup)
    (hperm : l'.Perm l)
    (hsort : l'.Sorted (fun a b => compare_processes mode a b ≤ 0)) :
    l'.Sorted (fun a b => a.pid < b.pid) ∧
    ∀ l'' : List ProcessInfo, l''.Perm l →
      l''.Sorted (fun a b => compare_processes mode a b ≤ 0) → l'' = l' := by
  haveI : IsAntisymm ProcessInfo (fun a b => a.pid < b.pid) :=
    ⟨fun a b h1 h2 => absurd (lt_trans h1 h2) (lt_irrefl _)⟩
  have hs1 := sorted_pid_of_sorted_cmp mode hm l l' hkeys hnodup hperm hsort
  refine ⟨hs1, ?_⟩
  intro l'' hperm'' hsort''
  have hs2 := sorted_pid_of_sorted_cmp mode hm l l'' hkeys hnodup hperm'' hsort''
  exact List.eq_of_perm_of_sorted (hperm''.trans hperm.symm) hs2 hs1

/-- C5 witness: two processes with equal smoothed CPU% keys and pids 1, 2
sorted under SORT_CPU_LAZY are in ascending-pid order. -/
theorem spec_c5_tiebreak_witness :
    List.Sorted (fun a b : ProcessInfo => a.pid < b.pid) [procC5w1, procC5w2] :=
  (spec_c5_tiebreak SORT_CPU_LAZY (Or.inl rfl) [procC5w1, procC5w2] [procC5w1, procC5w2]
    (by
      intro a ha b hb
      have h5 : ∀ c ∈ [procC5w1, procC5w2], c.cpu_percent_lazy = 5 := by decide
      unfold primaryKeyEq
      norm_num [SORT_CPU_LAZY, SORT_CPU_DIRECT]
      rw [h5 a ha, h5 b hb])
    (by decide) (List.Perm.refl _) (by decide)).1

/-- C5 counterexample: in SORT_NAME mode, two processes with equal
(case-insensitive) names and pids 2 > 1 compare as 0 — the comparator does
not fall back to ascending pid in the name case. -/
theorem spec_c5_counterexample :
    compare_processes SORT_NAME procC5a procC5b = 0 ∧ procC5b.pid < procC5a.pid := by
  constructor
  · decide
  · decide

theorem rbWrite_data_length (rb : RingBuffer) (v : ℚ) :
    (rbWrite rb v).data.length = rb.data.length := by
  simp [rbWrite]

theorem rbWrite_cursor_lt (rb : RingBuffer) (v : ℚ) (h : 0 < rb.data.length) :
    (rbWrite rb v).cursor < (rbWrite rb v).data.length := by
  rw [rbWrite_data_length]
  exact Nat.mod_lt _ h

theorem rbWriteAll_data_length (vs : List ℚ) (rb : RingBuffer) :
    (rbWriteAll rb vs).data.length = rb.data.length := by
  induction vs generalizing rb with
  | nil => rfl
  | cons v rest ih =>
    show (rbWriteAll (rbWrite rb v) rest).data.length = _
    rw [ih (rbWrite rb v)]
    exact rbWrite_data_length rb v

theorem rbWriteAll_cursor_lt (vs : List ℚ) (rb : RingBuffer)
    (hc : rb.cursor < rb.data.length) :
    (rbWriteAll rb vs).cursor < (rbWriteAll rb vs).data.length := by
  induction vs generalizing rb with
  | nil => exact hc
  | cons v rest ih =>
    show (rbWriteAll (rbWrite rb v) rest).cursor < _
    exact ih (rbWrite rb v) (rbWrite_cursor_lt rb v (by omega))

theorem rbLogical_length (rb : RingBuffer) (hc : rb.cursor < rb.data.length) :
    (rbLogical rb).length = rb.data.length := by
  unfold rbLogical
  simp
  omega

theorem rbLogical_write (rb : RingBuffer) (v : ℚ) (hc : rb.cursor < rb.data.length) :
    rbLogical (rbWrite rb v) = (rbLogical rb).drop 1 ++ [v] := by
  obtain ⟨l, c⟩ := rb
  simp only at hc
  have hset : l.set c v = l.take c ++ v :: l.drop (c + 1) := by
    rw [List.set_eq_take_append_cons_drop, if_pos hc]
  unfold rbWrite rbLogical
  simp only
  by_cases h1 : c + 1 < l.length
  · rw [Nat.mod_eq_of_lt h1, hset]
    rw [List.drop_append_eq_append_drop, List.take_append_eq_append_take]
    simp only [List.length_take]
    have htk : min c l.length = c := by omega
    rw [htk]
    have hd1 : (l.take c).drop (c + 1) = [] := by
      apply List.drop_of_length_le
      simp only [List.length_take]
      omega
    have ht1 : (l.take c).take (c + 1) = l.take c := by
      apply List.take_of_length_le
      simp only [List.length_take]
      omega
    rw [hd1, ht1]
    have hc1 : c + 1 - c = 1 := by omega
    rw [hc1]
    simp only [List.drop_succ_cons, List.drop_zero, List.take_succ_cons, List.take_zero,
      List.nil_append]
    rw [List.drop_append_eq_append_drop]
    have hlen : (l.drop c).length = l.length - c := by simp
    have h2 : 1 - (l.drop c).length = 0 := by omega
    rw [h2]
    simp only [List.drop_zero, List.drop_one]
    rw [List.append_assoc]
    congr 1
    exact (List.tail_drop l c).symm
  · have hceq : c + 1 = l.length := by omega
    rw [hceq, Nat.mod_self, hset]
    simp only [List.drop_zero, List.take_zero, List.append_nil]
    have hdrop : l.drop (c + 1) = [] := by
      apply List.drop_of_length_le
      omega
    rw [hdrop]
    rw [List.drop_append_eq_append_drop]
    have hlen : (l.drop c).length = l.length - c := by simp
    have h2 : 1 - (l.drop c).length = 0 := by omega
    rw [h2]
    simp only [List.drop_zero, List.drop_one]
    have htl : (l.drop c).tail = [] := by
      rw [List.tail_drop]
      apply List.drop_of_length_le
      omega
    rw [htl]
    simp

theorem rbLogical_writeAll (vs : List ℚ) (rb : RingBuffer) (hc : rb.cursor < rb.data.length) :
    rbLogical (rbWriteAll rb vs) = ((rbLogical rb) ++ vs).drop vs.length := by
  induction vs generalizing rb with
  | nil => simp [rbWriteAll]
  | cons v rest ih =>
    have hn : 0 < rb.data.length := by omega
    have hc' : (rbWrite rb v).cursor < (rbWrite rb v).data.length :=
      rbWrite_cursor_lt rb v hn
    have hstep := rbLogical_write rb v hc
    show rbLogical (rbWriteAll (rbWrite rb v) rest) = _
    rw [ih (rbWrite rb v) hc', hstep]
    have hrotlen : (rbLogical rb).length = rb.data.length := rbLogical_length rb hc
    obtain ⟨x, t, hxt⟩ : ∃ x t, rbLogical rb = x :: t := by
      cases hrot : rbLogical rb with
      | nil => rw [hrot] at hrotlen; simp at hrotlen; omega
      | cons x t => exact ⟨x, t, rfl⟩
    rw [hxt]
    simp only [List.drop_succ_cons, List.drop_one, List.tail_cons, List.cons_append,
      List.length_cons]
    rw [List.append_assoc]
    simp

theorem rbLogical_getD (rb : RingBuffer) (p : ℕ) (hc : rb.cursor < rb.data.length)
    (hp : p < rb.data.length) :
    (rbLogical rb).getD p 0 = rb.data.getD ((rb.cursor + p) % rb.data.length) 0 := by
  unfold rbLogical
  by_cases h : p < rb.data.length - rb.cursor
  · rw [List.getD_append _ _ _ _ (by simp; omega)]
    rw [List.getD_eq_getElem?_getD, List.getD_eq_getElem?_getD, List.getElem?_drop]
    rw [Nat.mod_eq_of_lt (by omega)]
  · rw [List.getD_append_right _ _ _ _ (by simp; omega)]
    rw [List.getD_eq_getElem?_getD, List.getD_eq_getElem?_getD,
      List.getElem?_take_of_lt (by simp; omega)]
    have h1 : rb.data.length ≤ rb.cursor + p := by omega
    rw [Nat.mod_eq_sub_mod h1, Nat.mod_eq_of_lt (by omega)]
    congr 2
    simp
    omega

theorem rbRead_eq_drop (rb : RingBuffer) (w : ℕ) (hc : rb.cursor < rb.data.length)
    (hw : w ≤ rb.data.length) :
    rbRead rb w = (rbLogical rb).drop (rb.data.length - w) := by
  have hn : 0 < rb.data.length := by omega
  have hrotlen : (rbLogical rb).length = rb.data.length := rbLogical_length rb hc
  have hminw : min w rb.data.length = w := by omega
  apply List.ext_getElem
  · simp [rbRead, hrotlen]
    omega
  · intro i h1 h2
    have hiw : i < w := by
      simp [rbRead, hminw] at h1
      exact h1
    rw [List.getElem_drop]
    have hreadi : (rbRead rb w)[i] =
        rb.data.getD (((rb.cursor + rb.data.length - w) % rb.data.length + i) %
          rb.data.length) 0 := by
      simp [rbRead]
    rw [hreadi]
    have hroti : (rbLogical rb)[rb.data.length - w + i] =
        (rbLogical rb).getD (rb.data.length - w + i) 0 := by
      rw [List.getD_eq_getElem _ _ (by omega)]
    rw [hroti, rbLogical_getD rb _ hc (by omega)]
    congr 1
    rw [Nat.mod_add_mod]
    congr 1
    omega

/-- C6: for every ring buffer of capacity N (with in-range cursor), after
writing N + k values (k ≥ 0) with the store-at-cursor-then-advance-mod-N
write operation, reading W ≤ N values forward with wraparound from the
starting offset (cursor − W + N) mod N yields exactly the last W written
values in chronological order, oldest to newest. -/
theorem spec_c6_ring_buffer (rb : RingBuffer) (vs : List ℚ) (w : ℕ)
    (hc : rb.cursor < rb.data.length)
    (hk : rb.data.length ≤ vs.length)
    (hw : w ≤ rb.data.length) :
    rbRead (rbWriteAll rb vs) w = vs.drop (vs.length - w) := by
  have hn : 0 < rb.data.length := by omega
  have hlen : (rbWriteAll rb vs).data.length = rb.data.length := rbWriteAll_data_length vs rb
  have hc' : (rbWriteAll rb vs).cursor < (rbWriteAll rb vs).data.length :=
    rbWriteAll_cursor_lt vs rb hc
  rw [rbRead_eq_drop _ w hc' (by rw [hlen]; exact hw)]
  rw [rbLogical_writeAll vs rb hc, hlen]
  rw [List.drop_drop]
  rw [List.drop_append_eq_append_drop]
  have hrotlen : (rbLogical rb).length = rb.data.length := rbLogical_length rb hc
  have h1 : (rbLogical rb).drop (vs.length + (rb.data.length - w)) = [] := by
    apply List.drop_of_length_le
    omega
  rw [h1]
  simp only [List.nil_append]
  congr 1
  omega

/-- C6 witness: capacity 3, writes [1, 2, 3, 4] (N + 1 values), reading
back W = 2 yields the last two writes [3, 4] oldest-to-newest. -/
theorem spec_c6_ring_buffer_witness :
    rbRead (rbWriteAll ⟨[0, 0, 0], 0⟩ [1, 2, 3, 4]) 2 = [3, 4] := by
  have h := spec_c6_ring_buffer ⟨[0, 0, 0], 0⟩ [1, 2, 3, 4] 2 (by decide) (by decide)
    (by decide)
  simpa using h

/-- C7: for every terminal size and pane-flag combination, draw_screen
renders the TooSmall diagnostic (and no pane layout) exactly when the
terminal is strictly smaller than the computed minimum in at least one
dimension; a terminal exactly at the computed minimum yields a
non-TooSmall layout, and one fewer row or column yields TooSmall. -/
theorem spec_c7_too_small (f : PaneFlags) (w h : ℕ) :
    (draw_screen_too_small w h f = true ↔
      w < (calculate_minimum_size f).1 ∨ h < (calculate_minimum_size f).2) ∧
    draw_screen_too_small (calculate_minimum_size f).1 (calculate_minimum_size f).2 f
      = false ∧
    draw_screen_too_small ((calculate_minimum_size f).1 - 1) (calculate_minimum_size f).2 f
      = true ∧
    draw_screen_too_small (calculate_minimum_size f).1 ((calculate_minimum_size f).2 - 1) f
      = true := by
  have hpos : 0 < (calculate_minimum_size f).1 ∧ 0 < (calculate_minimum_size f).2 := by
    obtain ⟨a, b, c, d, e⟩ := f
    cases a <;> cases b <;> cases c <;> cases d <;> cases e <;> decide
  refine ⟨?_, ?_, ?_, ?_⟩
  · simp [draw_screen_too_small]
  · simp [draw_screen_too_small]
  · simp [draw_screen_too_small]
    omega
  · simp [draw_screen_too_small]
    omega

theorem bestSearchAux_bounds (numCores avail m : ℕ) (fuel : ℕ) (best : ℕ × ℕ)
    (h1 : 1 ≤ best.1) (h2 : best.1 ≤ m) (hf : fuel ≤ m) :
    1 ≤ (bestSearchAux numCores avail fuel best).1 ∧
      (bestSearchAux numCores avail fuel best).1 ≤ m := by
  induction fuel generalizing best with
  | zero => exact ⟨h1, h2⟩
  | succ t ih =>
    simp only [bestSearchAux]
    split_ifs with hbrk hperf hupd
    · exact ⟨h1, h2⟩
    · exact ⟨by omega, by omega⟩
    · exact ih _ (by omega) (by omega) (by omega)
    · exact ih best h1 h2 (by omega)

theorem gridCells_props (tw : List ℕ) (cpr iw lh x y w h cs : ℕ)
    (hcpr : 0 < cpr)
    (hsorted : tw.Pairwise (fun a b => a < b))
    (hfit : cpr * iw ≤ w)
    (hcs : y ≤ cs)
    (hrow : ∀ i ∈ tw, cs + (i / cpr) * lh + lh ≤ y + h) :
    ((tw.map (fun i =>
        CoreCell.mk i (x + (i % cpr) * iw) (cs + (i / cpr) * lh) iw lh)).map
      CoreCell.core).Nodup ∧
    (tw.map (fun i =>
        CoreCell.mk i (x + (i % cpr) * iw) (cs + (i / cpr) * lh) iw lh)).Pairwise
      cellsDisjoint ∧
    ∀ c ∈ tw.map (fun i =>
        CoreCell.mk i (x + (i % cpr) * iw) (cs + (i / cpr) * lh) iw lh),
      cellInPane x y w h c := by
  refine ⟨?_, ?_, ?_⟩
  · rw [List.map_map]
    have hid : (CoreCell.core ∘ fun i =>
        CoreCell.mk i (x + (i % cpr) * iw) (cs + (i / cpr) * lh) iw lh) = id := rfl
    rw [hid, List.map_id]
    exact List.Pairwise.imp (fun hab => Nat.ne_of_lt hab) hsorted
  · rw [List.pairwise_map]
    refine List.Pairwise.imp ?_ hsorted
    intro i j hij
    unfold cellsDisjoint
    by_cases hq : i / cpr = j / cpr
    · left
      have e1 := Nat.div_add_mod i cpr
      have e2 := Nat.div_add_mod j cpr
      rw [hq] at e1
      have hmod : i % cpr + 1 ≤ j % cpr := by omega
      have hmul := Nat.mul_le_mul_right iw hmod
      rw [Nat.succ_mul] at hmul
      show x + i % cpr * iw + iw ≤ x + j % cpr * iw
      omega
    · right; right; left
      have hqle : i / cpr ≤ j / cpr := Nat.div_le_div_right (le_of_lt hij)
      have hqlt : i / cpr + 1 ≤ j / cpr := by omega
      have hmul := Nat.mul_le_mul_right lh hqlt
      rw [Nat.succ_mul] at hmul
      show cs + i / cpr * lh + lh ≤ cs + j / cpr * lh
      omega
  · intro c hc
    obtain ⟨i, hi, rfl⟩ := List.mem_map.mp hc
    have hmod : i % cpr < cpr := Nat.mod_lt i hcpr
    have hmul := Nat.mul_le_mul_right iw (show i % cpr + 1 ≤ cpr by omega)
    rw [Nat.succ_mul] at hmul
    have hr := hrow i hi
    unfold cellInPane
    refine ⟨?_, ?_, ?_, ?_⟩
    · show x ≤ x + i % cpr * iw
      omega
    · show x + i % cpr * iw + iw ≤ x + w
      omega
    · show y ≤ cs + i / cpr * lh
      omega
    · show cs + i / cpr * lh + lh ≤ y + h
      omega

set_option maxHeartbeats 1000000 in
/-- C8 (amended): provided the CPU pane is at least 18 columns wide (always
true when draw_screen calls it: the minimum-size gate guarantees pane width
≥ 78), the per-core sub-layout chooses two-line mode exactly when the
available rows fit every core at two rows each with the widest per-row core
count (one-line otherwise, truncating to what fits), and every displayed
core occupies exactly one cell, no two cells overlap, and every cell lies
within the CPU pane bounds.  For narrower panes the clamped one-item row
can exceed the pane width — `spec_c8_counterexample`. -/
theorem spec_c8_core_grid (numCores x y w h : ℕ) (hw : 18 ≤ w) :
    ((draw_cpu_section_cells numCores x y w h).map CoreCell.core).Nodup ∧
    (draw_cpu_section_cells numCores x y w h).Pairwise cellsDisjoint ∧
    (∀ c ∈ draw_cpu_section_cells numCores x y w h, cellInPane x y w h c) ∧
    (∀ c ∈ draw_cpu_section_cells numCores x y w h,
      c.ch = if uses_two_line numCores y w h then 2 else 1) := by
  have hclw2 : 2 ≤ core_label_width numCores := by
    unfold core_label_width
    split_ifs <;> omega
  have hclw4 : core_label_width numCores ≤ 4 := by
    unfold core_label_width
    split_ifs <;> omega
  by_cases h4 : h < 4
  · have hcells : draw_cpu_section_cells numCores x y w h = [] := by
      unfold draw_cpu_section_cells
      rw [if_pos h4]
    rw [hcells]
    exact ⟨by simp, by simp, by simp, by simp⟩
  by_cases hcse : y + 1 + (if h > 8 then 2 else 1) ≥ y + h - 1
  · have hcells : draw_cpu_section_cells numCores x y w h = [] := by
      unfold draw_cpu_section_cells
      rw [if_neg h4]
      dsimp only
      rw [if_pos hcse]
    rw [hcells]
    exact ⟨by simp, by simp, by simp, by simp⟩
  have htliw_pos : 0 < core_label_width numCores + 12 := by omega
  have htliw_le : core_label_width numCores + 12 ≤ w - 2 := by omega
  have hmax0 : 1 ≤ (w - 2) / (core_label_width numCores + 12) :=
    (Nat.le_div_iff_mul_le htliw_pos).mpr (by omega)
  have hclamp : ¬ ((w - 2) / (core_label_width numCores + 12) < 1) := by omega
  set maxc := (w - 2) / (core_label_width numCores + 12) with hmaxc
  by_cases hmode : (y + h - 1) - (y + 1 + (if h > 8 then 2 else 1)) ≥
      (numCores + maxc - 1) / maxc * 2
  · -- two-line mode
    set cpr := (bestSearchAux numCores ((y + h - 1) - (y + 1 + if h > 8 then 2 else 1))
      maxc (maxc, (numCores + maxc - 1) / maxc)).1 with hcprdef
    have hb := bestSearchAux_bounds numCores
      ((y + h - 1) - (y + 1 + if h > 8 then 2 else 1)) maxc maxc
      (maxc, (numCores + maxc - 1) / maxc) hmax0 (le_refl maxc) (le_refl maxc)
    rw [← hcprdef] at hb
    have hcpr1 : 1 ≤ cpr := hb.1
    have hcprle : cpr ≤ maxc := hb.2
    have hmul1 : cpr * (core_label_width numCores + 12) ≤ w - 2 := by
      have h5 := (Nat.le_div_iff_mul_le htliw_pos).mp hcprle
      omega
    have hmul1c : (core_label_width numCores + 12) * cpr ≤ w - 2 := by
      rw [Nat.mul_comm]
      exact hmul1
    have hdge : core_label_width numCores + 12 ≤ (w - 2) / cpr :=
      (Nat.le_div_iff_mul_le (show 0 < cpr by omega)).mpr hmul1c
    have hclamp2 : ¬ ((w - 2) / cpr < core_label_width numCores + 12) := by omega
    have hcells : draw_cpu_section_cells numCores x y w h =
        ((List.range (min numCores MAX_CPU_CORES)).takeWhile
          (fun i => decide ((y + 1 + if h > 8 then 2 else 1) + (i / cpr) * 2 + 1 <
            y + h - 1))).map
          (fun i => ⟨i, x + (i % cpr) * ((w - 2) / cpr),
            (y + 1 + if h > 8 then 2 else 1) + (i / cpr) * 2, (w - 2) / cpr, 2⟩) := by
      unfold draw_cpu_section_cells
      rw [if_neg h4]
      dsimp only
      rw [if_neg hcse]
      rw [← hmaxc]
      simp only [if_neg hclamp]
      rw [if_pos hmode, ← hcprdef]
      simp only [if_neg hclamp2]
    have huse : uses_two_line numCores y w h = true := by
      unfold uses_two_line
      dsimp only
      rw [← hmaxc]
      simp only [if_neg hclamp]
      exact decide_eq_true hmode
    rw [hcells, huse]
    have hfit : cpr * ((w - 2) / cpr) ≤ w := by
      have h6 := Nat.mul_div_le (w - 2) cpr
      omega
    have hg := gridCells_props
      ((List.range (min numCores MAX_CPU_CORES)).takeWhile
        (fun i => decide ((y + 1 + if h > 8 then 2 else 1) + (i / cpr) * 2 + 1 <
          y + h - 1)))
      cpr ((w - 2) / cpr) 2 x y w h (y + 1 + if h > 8 then 2 else 1)
      (by omega)
      (List.Pairwise.sublist (List.takeWhile_sublist _) (List.pairwise_lt_range _))
      hfit
      (by omega)
      (by
        intro i hi
        have hp := List.mem_takeWhile_imp hi
        have hp2 := of_decide_eq_true hp
        omega)
    refine ⟨hg.1, hg.2.1, hg.2.2, ?_⟩
    intro c hc
    obtain ⟨i, hi, rfl⟩ := List.mem_map.mp hc
    rfl
  · -- one-line mode branch
    have hsliw_pos : 0 < core_label_width numCores + 6 := by omega
    have hsliw_le : core_label_width numCores + 6 ≤ w - 2 := by omega
    have hcpr1 : 1 ≤ (w - 2) / (core_label_width numCores + 6) :=
      (Nat.le_div_iff_mul_le hsliw_pos).mpr (by omega)
    have hclampo : ¬ ((w - 2) / (core_label_width numCores + 6) < 1) := by omega
    set cpr := (w - 2) / (core_label_width numCores + 6) with hcprdef
    have hfit : cpr * (core_label_width numCores + 6) ≤ w := by
      have h6 := (Nat.le_div_iff_mul_le hsliw_pos).mp (le_refl cpr)
      omega
    have hcells : draw_cpu_section_cells numCores x y w h =
        ((List.range (min (min (cpr * ((y + h - 1) - (y + 1 + if h > 8 then 2 else 1)))
            numCores) MAX_CPU_CORES)).takeWhile
          (fun i => decide ((y + 1 + if h > 8 then 2 else 1) + i / cpr < y + h - 1))).map
          (fun i => ⟨i, x + (i % cpr) * (core_label_width numCores + 6),
            (y + 1 + if h > 8 then 2 else 1) + i / cpr, core_label_width numCores + 6,
            1⟩) := by
      unfold draw_cpu_section_cells
      rw [if_neg h4]
      dsimp only
      rw [if_neg hcse]
      rw [← hmaxc]
      simp only [if_neg hclamp]
      rw [if_neg hmode, ← hcprdef]
      simp only [if_neg hclampo]
    have huse : uses_two_line numCores y w h = false := by
      unfold uses_two_line
      dsimp only
      rw [← hmaxc]
      simp only [if_neg hclamp]
      exact decide_eq_false hmode
    rw [hcells, huse]
    have hg := gridCells_props
      ((List.range (min (min (cpr * ((y + h - 1) - (y + 1 + if h > 8 then 2 else 1)))
          numCores) MAX_CPU_CORES)).takeWhile
        (fun i => decide ((y + 1 + if h > 8 then 2 else 1) + i / cpr < y + h - 1)))
      cpr (core_label_width numCores + 6) 1 x y w h
      (y + 1 + if h > 8 then 2 else 1)
      (by omega)
      (List.Pairwise.sublist (List.takeWhile_sublist _) (List.pairwise_lt_range _))
      hfit
      (by omega)
      (by
        intro i hi
        have hp := List.mem_takeWhile_imp hi
        have hp2 := of_decide_eq_true hp
        omega)
    simp only [Nat.mul_one] at hg
    refine ⟨hg.1, hg.2.1, hg.2.2, ?_⟩
    intro c hc
    obtain ⟨i, hi, rfl⟩ := List.mem_map.mp hc
    rfl

/-- C8 witness: four cores in a 78-column, 12-row CPU pane at origin
(1, 1): core 0's cell (a 19-column two-line item) lies within the pane. -/
theorem spec_c8_core_grid_witness :
    cellInPane 1 1 78 12 ⟨0, 1, 4, 19, 2⟩ :=
  (spec_c8_core_grid 4 1 1 78 12 (by omega)).2.2.1 ⟨0, 1, 4, 19, 2⟩ (by decide)

/-- C8 counterexample: a 5-column pane (narrower than one two-line item)
with one core still emits a 14-column-wide cell, overflowing the pane
bounds — the claim's never-overflow clause fails for arbitrary pane
widths. -/
theorem spec_c8_counterexample :
    ∃ c ∈ draw_cpu_section_cells 1 0 0 5 20, ¬ cellInPane 0 0 5 20 c := by
  have hcells : draw_cpu_section_cells 1 0 0 5 20 = [⟨0, 0, 3, 14, 2⟩] := by decide
  refine ⟨⟨0, 0, 3, 14, 2⟩, ?_, ?_⟩
  · rw [hcells]
    exact List.mem_singleton.mpr rfl
  · unfold cellInPane
    simp only
    omega

theorem applyStatLine_frame (st : SystemStats) (l : StatLine) :
    (applyStatLine st l).history_index = st.history_index ∧
    (applyStatLine st l).cpu_history = st.cpu_history ∧
    (applyStatLine st l).mem_history = st.mem_history ∧
    (applyStatLine st l).net_history_rx = st.net_history_rx ∧
    (applyStatLine st l).net_history_tx = st.net_history_tx ∧
    (applyStatLine st l).disks = st.disks := by
  cases l with
  | overall s => exact ⟨rfl, rfl, rfl, rfl, rfl, rfl⟩
  | core n s =>
    unfold applyStatLine
    by_cases hn2 : n < MAX_CPU_CORES
    · simp [if_pos hn2]
    · simp [if_neg hn2]

theorem foldStat_frame (lines : List StatLine) (st : SystemStats) :
    ((lines.foldl applyStatLine st).history_index = st.history_index) ∧
    ((lines.foldl applyStatLine st).cpu_history = st.cpu_history) ∧
    ((lines.foldl applyStatLine st).mem_history = st.mem_history) ∧
    ((lines.foldl applyStatLine st).net_history_rx = st.net_history_rx) ∧
    ((lines.foldl applyStatLine st).net_history_tx = st.net_history_tx) ∧
    ((lines.foldl applyStatLine st).disks = st.disks) := by
  induction lines generalizing st with
  | nil => exact ⟨rfl, rfl, rfl, rfl, rfl, rfl⟩
  | cons l rest ih =>
    have h1 := applyStatLine_frame st l
    have h2 := ih (applyStatLine st l)
    simp only [List.foldl_cons]
    exact ⟨h2.1.trans h1.1, h2.2.1.trans h1.2.1, h2.2.2.1.trans h1.2.2.1,
      h2.2.2.2.1.trans h1.2.2.2.1, h2.2.2.2.2.1.trans h1.2.2.2.2.1,
      h2.2.2.2.2.2.trans h1.2.2.2.2.2⟩

theorem applyStatLine_cores_other (st : SystemStats) (l : StatLine) (n : ℕ)
    (h : isCoreLine n l = false) : (applyStatLine st l).cores n = st.cores n := by
  cases l with
  | overall s => rfl
  | core m s =>
    simp only [isCoreLine, beq_eq_false_iff_ne, ne_eq] at h
    unfold applyStatLine
    by_cases hm2 : m < MAX_CPU_CORES
    · simp only [if_pos hm2]
      exact Function.update_noteq (fun hnm => h hnm.symm) _ _
    · simp only [if_neg hm2]

theorem foldStat_cores_none (n : ℕ) (lines : List StatLine) :
    ∀ st : SystemStats, lines.countP (isCoreLine n) = 0 →
      (lines.foldl applyStatLine st).cores n = st.cores n := by
  induction lines with
  | nil => intro st _; rfl
  | cons l rest ih =>
    intro st h
    by_cases hb : isCoreLine n l = true
    · exfalso
      rw [List.countP_cons_of_pos _ _ hb] at h
      omega
    · rw [List.countP_cons_of_neg _ _ hb] at h
      simp only [List.foldl_cons]
      rw [ih (applyStatLine st l) h]
      exact applyStatLine_cores_other st l n (eq_false_of_ne_true hb)

theorem foldStat_cores_single (n : ℕ) (s : CpuSample) (lines : List StatLine) :
    ∀ st : SystemStats, n < MAX_CPU_CORES →
      lines.countP (isCoreLine n) = 1 → StatLine.core n s ∈ lines →
      (lines.foldl applyStatLine st).cores n = updateCore (st.cores n) s := by
  induction lines with
  | nil => intro st _ _ hmem; cases hmem
  | cons l rest ih =>
    intro st hn hcount hmem
    by_cases hb : isCoreLine n l = true
    · cases l with
      | overall s0 => simp [isCoreLine] at hb
      | core m s0 =>
        have hm : m = n := by simpa [isCoreLine] using hb
        subst hm
        rw [List.countP_cons_of_pos _ _ hb] at hcount
        have hrest : rest.countP (isCoreLine m) = 0 := by omega
        have hs : s0 = s := by
          rcases List.mem_cons.mp hmem with heq | hm2
          · injection heq with h1 h2
            exact h2.symm
          · exfalso
            have h0 := List.countP_eq_zero.mp hrest _ hm2
            simp [isCoreLine] at h0
        subst hs
        simp only [List.foldl_cons]
        rw [foldStat_cores_none m rest _ hrest]
        unfold applyStatLine
        simp only [if_pos hn]
        rw [Function.update_same]
    · have hf := eq_false_of_ne_true hb
      rw [List.countP_cons_of_neg _ _ hb] at hcount
      have hm2 : StatLine.core n s ∈ rest := by
        rcases List.mem_cons.mp hmem with heq | hm2
        · exfalso
          rw [← heq] at hf
          simp [isCoreLine] at hf
        · exact hm2
      simp only [List.foldl_cons]
      rw [ih (applyStatLine st l) hn hcount hm2]
      rw [applyStatLine_cores_other st l n hf]

/-- C10: per refresh tick, the global history cursor shared by the overall
CPU, memory, network, and disk history series is advanced exactly once —
after every one of those series has written its value at the pre-advance
cursor position — and always stays in [0, HISTORY_SIZE); each per-core
series (for a core whose stat line appears exactly once in the tick's
snapshot) advances its own cursor exactly once, staying in the same range,
its value also written at that core's pre-advance cursor. -/
theorem spec_c10_history_cursor (st : SystemStats) (i : TickInput) (n : ℕ) (s : CpuSample)
    (hn : n < MAX_CPU_CORES)
    (hcount : i.statLines.countP (isCoreLine n) = 1)
    (hmem : StatLine.core n s ∈ i.statLines) :
    (update_stats st i).history_index = (st.history_index + 1) % HISTORY_SIZE ∧
    (update_stats st i).history_index < HISTORY_SIZE ∧
    (update_stats st i).cpu_history =
      st.cpu_history.set st.history_index (ctrunc (update_stats st i).overall.percent) ∧
    (update_stats st i).mem_history =
      st.mem_history.set st.history_index (ctrunc (update_stats st i).mem_percent) ∧
    (update_stats st i).net_history_rx =
      st.net_history_rx.set st.history_index
        (ctrunc ((update_stats st i).net_rx_speed / 100)) ∧
    (update_stats st i).net_history_tx =
      st.net_history_tx.set st.history_index
        (ctrunc ((update_stats st i).net_tx_speed / 100)) ∧
    (update_stats st i).disks = buildDisks st.disks st.history_index i.diskLines 0 ∧
    (update_stats st i).cores n = updateCore (st.cores n) s ∧
    ((update_stats st i).cores n).history_idx =
      ((st.cores n).history_idx + 1) % HISTORY_SIZE ∧
    ((update_stats st i).cores n).history_idx < HISTORY_SIZE ∧
    ((update_stats st i).cores n).history =
      (st.cores n).history.set (st.cores n).history_idx
        ((update_stats st i).cores n).percent := by
  have hframe := foldStat_frame i.statLines st
  have h1 : (update_stats st i).history_index = (st.history_index + 1) % HISTORY_SIZE := by
    show ((i.statLines.foldl applyStatLine st).history_index + 1) % HISTORY_SIZE = _
    rw [hframe.1]
  have hcores : (update_stats st i).cores n = updateCore (st.cores n) s := by
    show (i.statLines.foldl applyStatLine st).cores n = _
    exact foldStat_cores_single n s i.statLines st hn hcount hmem
  refine ⟨h1, ?_, ?_, ?_, ?_, ?_, ?_, hcores, ?_, ?_, ?_⟩
  · rw [h1]
    exact Nat.mod_lt _ (by norm_num [HISTORY_SIZE])
  · show (i.statLines.foldl applyStatLine st).cpu_history.set
        (i.statLines.foldl applyStatLine st).history_index
        (ctrunc (i.statLines.foldl applyStatLine st).overall.percent) =
      st.cpu_history.set st.history_index
        (ctrunc (i.statLines.foldl applyStatLine st).overall.percent)
    rw [hframe.1, hframe.2.1]
  · show (i.statLines.foldl applyStatLine st).mem_history.set
        (i.statLines.foldl applyStatLine st).history_index
        (ctrunc (parse_meminfo (parse_cpu_stats st i.statLines) i.mem).mem_percent) =
      st.mem_history.set st.history_index
        (ctrunc (parse_meminfo (parse_cpu_stats st i.statLines) i.mem).mem_percent)
    rw [hframe.1, hframe.2.2.1]
  · show (i.statLines.foldl applyStatLine st).net_history_rx.set
        (i.statLines.foldl applyStatLine st).history_index
        (ctrunc ((parse_net_stats (parse_meminfo (parse_cpu_stats st i.statLines) i.mem)
          i.net_rx i.net_tx).net_rx_speed / 100)) =
      st.net_history_rx.set st.history_index
        (ctrunc ((parse_net_stats (parse_meminfo (parse_cpu_stats st i.statLines) i.mem)
          i.net_rx i.net_tx).net_rx_speed / 100))
    rw [hframe.1, hframe.2.2.2.1]
  · show (i.statLines.foldl applyStatLine st).net_history_tx.set
        (i.statLines.foldl applyStatLine st).history_index
        (ctrunc ((parse_net_stats (parse_meminfo (parse_cpu_stats st i.statLines) i.mem)
          i.net_rx i.net_tx).net_tx_speed / 100)) =
      st.net_history_tx.set st.history_index
        (ctrunc ((parse_net_stats (parse_meminfo (parse_cpu_stats st i.statLines) i.mem)
          i.net_rx i.net_tx).net_tx_speed / 100))
    rw [hframe.1, hframe.2.2.2.2.1]
  · show buildDisks (i.statLines.foldl applyStatLine st).disks
        (i.statLines.foldl applyStatLine st).history_index i.diskLines 0 =
      buildDisks st.disks st.history_index i.diskLines 0
    rw [hframe.1, hframe.2.2.2.2.2]
  · rw [hcores]
    rfl
  · rw [hcores]
    show ((st.cores n).history_idx + 1) % HISTORY_SIZE < HISTORY_SIZE
    exact Nat.mod_lt _ (by norm_num [HISTORY_SIZE])
  · rw [hcores]
    rfl

/-- C10 witness: a concrete tick (one overall line, one core-0 line) from
history cursor 0 advances the global cursor to 1 and core 0's cursor to 1. -/
theorem spec_c10_history_cursor_witness :
    (update_stats demoStats tickC10).history_index = 1 ∧
    ((update_stats demoStats tickC10).cores 0).history_idx = 1 := by
  have h := spec_c10_history_cursor demoStats tickC10 0 ⟨1, 0, 0, 0, 0, 0, 0, 0⟩
    (by decide) (by decide) (by decide)
  constructor
  · rw [h.1]
    norm_num [demoStats, HISTORY_SIZE]
  · rw [h.2.2.2.2.2.2.2.2.1]
    norm_num [demoStats, HISTORY_SIZE]

end Ctop
